import Mathlib

/-!
Shallow embedding of the goInterpreter front end (the Bacon language lexer,
token package, Pratt parser and AST string rendering), together with theorems
settling the specification claims about it.

Conventions of the embedding:
* Go strings are modelled as `List Char`; every byte of the sources involved
  is ASCII, so a character models a byte.
* The Go `Lexer` struct stores `input`, `position`, `readPosition` and `ch`.
  On every state reachable from `lexer.New` the fields satisfy
  `readPosition = position + 1` and `ch = input[position]` (0 past the end),
  because `readChar` establishes them together.  The embedding therefore keeps
  `input` and `position` as the state and derives `ch`/`peekChar` from them.
* The scanner's three internal loops (`skipWhitespace`, `readIdentifier`,
  `readNumber`) are primitive recursions on the explicit fuel
  `input.length + 1 - position`.  Each loop body advances `position` by one
  and the loop guard fails on the 0 sentinel produced past the end of input,
  so this fuel never runs out: the unfolding lemmas below recover exactly the
  Go loop equations.
* The parser can genuinely fail to terminate (its skip-to-semicolon loops),
  so all parser functions take a fuel argument; `none` means the fuel was
  exhausted, and divergence of the Go code is expressed as returning `none`
  at every fuel.
-/

namespace GoInterp

/-- Str models a Go string as its list of (byte-sized) characters. -/
abbrev Str := List Char

/-- TokenType models the Go `token.TokenType` string constants from
`token/token.go` as a closed enumeration. -/
inductive TokenType where
  | ILLEGAL | EOF
  | IDENT | INT
  | ASSIGN | PLUS | MINUS | BANG | ASTERISK | SLASH
  | LT | GT | EQ | NOT_EQ
  | COMMA | SEMICOLON
  | LPAREN | RPAREN | LBRACE | RBRACE
  | FUNCTION | LET | TRUE | FALSE | IF | ELSE | RETURN
deriving DecidableEq, Repr

/-- tokenTypeStr gives the Go string value of each `token.TokenType`
constant (the constants are strings in `token/token.go`). -/
def tokenTypeStr : TokenType → Str
  | .ILLEGAL => "ILLEGAL".toList
  | .EOF => "EOF".toList
  | .IDENT => "IDENT".toList
  | .INT => "INT".toList
  | .ASSIGN => "=".toList
  | .PLUS => "+".toList
  | .MINUS => "-".toList
  | .BANG => "!".toList
  | .ASTERISK => "*".toList
  | .SLASH => "/".toList
  | .LT => "<".toList
  | .GT => ">".toList
  | .EQ => "==".toList
  | .NOT_EQ => "!=".toList
  | .COMMA => ",".toList
  | .SEMICOLON => ";".toList
  | .LPAREN => "(".toList
  | .RPAREN => ")".toList
  | .LBRACE => ['\x7b']
  | .RBRACE => ['\x7d']
  | .FUNCTION => "FUNCTION".toList
  | .LET => "LET".toList
  | .TRUE => "TRUE".toList
  | .FALSE => "FALSE".toList
  | .IF => "IF".toList
  | .ELSE => "ELSE".toList
  | .RETURN => "RETURN".toList

/-- Token models `token.Token`: a token type together with its literal text. -/
structure Token where
  type : TokenType
  literal : Str
deriving DecidableEq, Repr

/-- LookupTokenType models `token.LookupTokenType`: the `keywords` map of
`token/token.go` holds exactly the entries `"fn" ↦ FUNCTION` and
`"let" ↦ LET`; any other literal is a generic identifier. -/
def LookupTokenType (literal : Str) : TokenType :=
  if literal = "fn".toList then .FUNCTION
  else if literal = "let".toList then .LET
  else .IDENT

/-- nulChar is the 0 byte, the Go lexer's sentinel for end of input. -/
def nulChar : Char := Char.ofNat 0

/-- charAtOrNul reads the byte at index `i`, or the 0 sentinel past the end,
exactly as the bounds check in `readChar`/`peekChar` does. -/
def charAtOrNul (input : Str) (i : Nat) : Char :=
  input.getD i nulChar

/-- Lexer models the scanner state of `lexer.Lexer`.  The Go fields
`readPosition` and `ch` equal `position + 1` and `charAtOrNul input position`
on every state reachable from `lexer.New`, so they are derived here
(`Lexer.ch`, `Lexer.peekChar`) rather than stored. -/
structure Lexer where
  input : Str
  position : Nat
deriving DecidableEq, Repr

/-- Lexer.ch is the character currently under examination (Go field `ch`). -/
def Lexer.ch (l : Lexer) : Char := charAtOrNul l.input l.position

/-- Lexer.peekChar models `peekChar`: the character at `readPosition`,
or 0 past the end. -/
def Lexer.peekChar (l : Lexer) : Char := charAtOrNul l.input (l.position + 1)

/-- Lexer.readChar models `readChar`: advance `position` to `readPosition`
(one step right); `ch` and `peekChar` are derived. -/
def Lexer.readChar (l : Lexer) : Lexer := { l with position := l.position + 1 }

/-- lexNew models `lexer.New`: after the initial `readChar` the scanner
examines position 0. -/
def lexNew (input : Str) : Lexer := { input := input, position := 0 }

/-- isLetter models the Go helper `isLetter`: ASCII letter or underscore
(byte comparisons `'a' <= ch && ch <= 'z' || 'A' <= ch && ch <= 'Z' ||
ch == '_'`, expressed on the byte value). -/
def isLetter (c : Char) : Bool :=
  (97 ≤ c.toNat && c.toNat ≤ 122) || (65 ≤ c.toNat && c.toNat ≤ 90) || c.toNat = 95

/-- isDisit models the Go helper `isDisit` (sic): ASCII digit
(`'0' <= ch && ch <= '9'` on the byte value). -/
def isDisit (c : Char) : Bool :=
  48 ≤ c.toNat && c.toNat ≤ 57

/-- isWhitespaceCh gives the four bytes skipped by `skipWhitespace`. -/
def isWhitespaceCh (c : Char) : Bool :=
  c = ' ' || c = '\t' || c = '\n' || c = '\r'

/-- skipWsAux is the `skipWhitespace` loop body with explicit fuel. -/
def skipWsAux : Nat → Lexer → Lexer
  | 0, l => l
  | n + 1, l => if isWhitespaceCh l.ch then skipWsAux n l.readChar else l

/-- Lexer.skipWhitespace models `skipWhitespace`; the fuel
`input.length + 1 - position` is always sufficient because the loop guard
fails on the 0 sentinel past the end of input. -/
def Lexer.skipWhitespace (l : Lexer) : Lexer :=
  skipWsAux (l.input.length + 1 - l.position) l

/-- identLoopAux is the `readIdentifier` loop body with explicit fuel. -/
def identLoopAux : Nat → Lexer → Lexer
  | 0, l => l
  | n + 1, l => if isLetter l.ch then identLoopAux n l.readChar else l

/-- identLoop runs the `readIdentifier` loop (advance while `isLetter`). -/
def identLoop (l : Lexer) : Lexer :=
  identLoopAux (l.input.length + 1 - l.position) l

/-- numberLoopAux is the `readNumber` loop body with explicit fuel. -/
def numberLoopAux : Nat → Lexer → Lexer
  | 0, l => l
  | n + 1, l => if isDisit l.ch then numberLoopAux n l.readChar else l

/-- numberLoop runs the `readNumber` loop (advance while `isDisit`). -/
def numberLoop (l : Lexer) : Lexer :=
  numberLoopAux (l.input.length + 1 - l.position) l

/-- sliceChars models the Go slice `input[a:b]`. -/
def sliceChars (input : Str) (a b : Nat) : Str :=
  (input.drop a).take (b - a)

/-- newToken models the helper `newToken`: a token whose literal is the one
examined byte. -/
def newToken (t : TokenType) (c : Char) : Token :=
  { type := t, literal := [c] }

/-- nextTokenCore is the switch body of `NextToken`, applied after
whitespace has been skipped; it returns the token and the next scanner
state.  The branches follow the Go `switch l.ch` cases in order. -/
def nextTokenCore (l : Lexer) : Token × Lexer :=
  let c := l.ch
  if c = '=' then
    if l.peekChar = '=' then
      let l1 := l.readChar
      ({ type := .EQ, literal := [c, l1.ch] }, l1.readChar)
    else (newToken .ASSIGN c, l.readChar)
  else if c = '+' then (newToken .PLUS c, l.readChar)
  else if c = '-' then (newToken .MINUS c, l.readChar)
  else if c = '!' then
    if l.peekChar = '=' then
      let l1 := l.readChar
      ({ type := .NOT_EQ, literal := [c, l1.ch] }, l1.readChar)
    else (newToken .BANG c, l.readChar)
  else if c = '/' then (newToken .SLASH c, l.readChar)
  else if c = '*' then (newToken .ASTERISK c, l.readChar)
  else if c = '<' then (newToken .LT c, l.readChar)
  else if c = '>' then (newToken .GT c, l.readChar)
  else if c = ';' then (newToken .SEMICOLON c, l.readChar)
  else if c = ',' then (newToken .COMMA c, l.readChar)
  else if c = '\x7b' then (newToken .LBRACE c, l.readChar)
  else if c = '\x7d' then (newToken .RBRACE c, l.readChar)
  else if c = '(' then (newToken .LPAREN c, l.readChar)
  else if c = ')' then (newToken .RPAREN c, l.readChar)
  else if c = nulChar then ({ type := .EOF, literal := [] }, l.readChar)
  else if isLetter c then
    let l1 := identLoop l
    let lit := sliceChars l.input l.position l1.position
    ({ type := LookupTokenType lit, literal := lit }, l1)
  else if isDisit c then
    let l1 := numberLoop l
    ({ type := .INT, literal := sliceChars l.input l.position l1.position }, l1)
  else (newToken .ILLEGAL c, l.readChar)

/-- Lexer.nextToken models `NextToken`: skip whitespace, then dispatch on
the current character. -/
def Lexer.nextToken (l : Lexer) : Token × Lexer :=
  nextTokenCore l.skipWhitespace

/-- lexRun is the scanner state after `n` calls to `NextToken` starting
from `lexer.New input`. -/
def lexRun (input : Str) : Nat → Lexer
  | 0 => lexNew input
  | n + 1 => ((lexRun input n).nextToken).2

/-- lexTokens collects the first `n` tokens of a scanner state. -/
def lexTokens : Nat → Lexer → List Token
  | 0, _ => []
  | n + 1, l =>
    let r := l.nextToken
    r.1 :: lexTokens n r.2

/-- Lexer.atEnd says the scanner position is at or past the end of the
input: from such a state every future token is the end-of-input token. -/
def Lexer.atEnd (l : Lexer) : Prop := l.input.length ≤ l.position

/-- Expr models the Go `ast.Expression` interface value produced by the
parser.  The constructor `nilE` models a nil `ast.Expression` (the parser
returns nil expressions on errors); the others model the concrete node
structs `Identifier`, `IntegerLiteral`, `Boolean`, `PrefixExpression` and
`InfixExpression`, each carrying its originating token. -/
inductive Expr where
  | nilE
  | ident (tok : Token) (value : Str)
  | intLit (tok : Token) (value : Int)
  | boolean (tok : Token) (value : Bool)
  | prefixE (tok : Token) (op : Str) (right : Expr)
  | infixE (tok : Token) (left : Expr) (op : Str) (right : Expr)
deriving DecidableEq, Repr

/-- Stmt models the Go `ast.Statement` interface value inside
`Program.Statements`.  `letNil` models a nil `*ast.LetStatement` wrapped in
a (non-nil) `Statement` interface value, which is what `parseLetStatement`
yields on its error paths. -/
inductive Stmt where
  | letS (tok : Token) (nameTok : Token) (nameVal : Str) (value : Expr)
  | letNil
  | returnS (tok : Token) (value : Expr)
  | exprS (tok : Token) (e : Expr)
deriving DecidableEq, Repr

/-- Program models `ast.Program`: the ordered list of parsed statements. -/
structure Program where
  statements : List Stmt
deriving DecidableEq, Repr

/-- exprString models the `String()` methods of the expression nodes in the
full AST version (`Identifier` returns its value, literals return their
token literal, prefix and infix nodes parenthesise themselves).  On a nil
expression the Go code would dereference a nil pointer; that case is never
reached by the theorems below and is rendered as the empty string. -/
def exprString : Expr → Str
  | .nilE => []
  | .ident _ v => v
  | .intLit tok _ => tok.literal
  | .boolean tok _ => tok.literal
  | .prefixE _ op r => '(' :: (op ++ exprString r) ++ [')']
  | .infixE _ l op r =>
      '(' :: (exprString l ++ [' '] ++ op ++ [' '] ++ exprString r) ++ [')']

/-- expressionStatementStringV1 models `ExpressionStatement.String()` from
`ast/ast.go`: when the wrapped expression is non-nil its rendering
`es.Expression.String()` is computed but the result is discarded, and the
method returns the empty string unconditionally. -/
def expressionStatementStringV1 (e : Expr) : Str :=
  if e = Expr.nilE then []
  else
    let _ := exprString e
    []

/-- expressionStatementStringV2 models `ExpressionStatement.String()` from
the later AST version: the wrapped expression's rendering is returned
(empty string when the expression is nil). -/
def expressionStatementStringV2 (e : Expr) : Str :=
  if e = Expr.nilE then [] else exprString e

/-- letStatementString models `LetStatement.String()` (identical in both
AST versions): `let <name> = <value?>;`.  On the nil `*ast.LetStatement`
the Go code would panic; that case is never reached below. -/
def letStatementString (tok : Token) (nameVal : Str) (value : Expr) : Str :=
  tok.literal ++ [' '] ++ nameVal ++ " = ".toList ++
    (if value = Expr.nilE then [] else exprString value) ++ [';']

/-- returnStatementString models `ReturnStatement.String()` (identical in
both AST versions): `return <value?>;`. -/
def returnStatementString (tok : Token) (value : Expr) : Str :=
  tok.literal ++ [' '] ++
    (if value = Expr.nilE then [] else exprString value) ++ [';']

/-- stmtStringV1 dispatches `Statement.String()` with the `ast/ast.go`
version of `ExpressionStatement.String()`. -/
def stmtStringV1 : Stmt → Str
  | .letS tok _ nameVal value => letStatementString tok nameVal value
  | .letNil => []
  | .returnS tok value => returnStatementString tok value
  | .exprS _ e => expressionStatementStringV1 e

/-- stmtStringV2 dispatches `Statement.String()` with the later AST
version of `ExpressionStatement.String()`. -/
def stmtStringV2 : Stmt → Str
  | .letS tok _ nameVal value => letStatementString tok nameVal value
  | .letNil => []
  | .returnS tok value => returnStatementString tok value
  | .exprS _ e => expressionStatementStringV2 e

/-- programStringV1 models `Program.String()` over `stmtStringV1`:
concatenate the statements' renderings. -/
def programStringV1 (p : Program) : Str :=
  (p.statements.map stmtStringV1).flatten

/-- programStringV2 models `Program.String()` over `stmtStringV2`. -/
def programStringV2 (p : Program) : Str :=
  (p.statements.map stmtStringV2).flatten

/-- digitVal models the digit decoding of Go `strconv.ParseUint`:
`0`-`9`, then letters (case-insensitively) for values 10 and above. -/
def digitVal (c : Char) : Option Nat :=
  if 48 ≤ c.toNat ∧ c.toNat ≤ 57 then some (c.toNat - 48)
  else if 97 ≤ c.toNat ∧ c.toNat ≤ 122 then some (c.toNat - 97 + 10)
  else if 65 ≤ c.toNat ∧ c.toNat ≤ 90 then some (c.toNat - 65 + 10)
  else none

/-- parseDigitsAux accumulates the digits of `strconv.ParseUint`'s loop,
failing on the first character that is not a digit below the base.  The
accumulator is a mathematical natural, so Go's incremental cutoff checks
are replaced by the final range comparison in `goParseInt0`, which rejects
the same inputs. -/
def parseDigitsAux (base : Nat) (acc : Nat) : Str → Option Nat
  | [] => some acc
  | c :: cs =>
    match digitVal c with
    | some d => if d < base then parseDigitsAux base (acc * base + d) cs else none
    | none => none

/-- goParseUint models `strconv.ParseUint(s, base, _)` on an unsigned,
underscore-free digit string: the empty string is a syntax error. -/
def goParseUint (base : Nat) (ds : Str) : Option Nat :=
  match ds with
  | [] => none
  | _ => parseDigitsAux base 0 ds

/-- maxInt64 is `2^63 - 1`, the largest Go `int64`. -/
def maxInt64 : Nat := 9223372036854775807

/-- goParseInt0Core models the base inference of
`strconv.ParseInt(s, 0, 64)` on the sign-free, underscore-free literals
produced by the scanner: a string of length at least two starting with `0`
selects hex/octal/binary for an `x`/`o`/`b` marker and legacy octal
otherwise; everything else is decimal. -/
def goParseInt0Core : Str → Option Nat
  | [] => none
  | [c] => goParseUint 10 [c]
  | c0 :: c1 :: rest =>
    if c0 = '0' then
      if c1 = 'x' ∨ c1 = 'X' then goParseUint 16 rest
      else if c1 = 'o' ∨ c1 = 'O' then goParseUint 8 rest
      else if c1 = 'b' ∨ c1 = 'B' then goParseUint 2 rest
      else goParseUint 8 (c1 :: rest)
    else goParseUint 10 (c0 :: c1 :: rest)

/-- goParseInt0 models `strconv.ParseInt(s, 0, 64)`: infer the base, read
the digits, and require the result to fit in an `int64` (the sign-free
bound `2^63 - 1`), else report the range error.  `none` models a non-nil
error. -/
def goParseInt0 (s : Str) : Option Int :=
  match goParseInt0Core s with
  | some v => if v ≤ maxInt64 then some (v : Int) else none
  | none => none

/-- natOfDigits is the mathematical value of a digit string in a base:
the reference value against which the conversion is characterised. -/
def natOfDigits (base : Nat) (ds : Str) : Nat :=
  ds.foldl (fun a c => a * base + (c.toNat - 48)) 0

/-- intLiteralSpec characterises `strconv.ParseInt(lit, 0, 64)` on the
non-empty all-digit literals produced by `readNumber`: a literal of length
at least two with a leading `0` is octal — it fails exactly when it holds
a digit above 7 or its octal value exceeds `maxInt64` — and any other
literal is decimal, failing exactly when its value exceeds `maxInt64`. -/
def intLiteralSpec (lit : Str) : Option Nat :=
  if 2 ≤ lit.length ∧ lit.headI = '0' then
    if (∀ c ∈ lit.tail, c.toNat ≤ 55) ∧ natOfDigits 8 lit.tail ≤ maxInt64 then
      some (natOfDigits 8 lit.tail)
    else none
  else if natOfDigits 10 lit ≤ maxInt64 then some (natOfDigits 10 lit) else none

/-- PState models the parser state of `parser.Parser` from the full parser
version: the scanner it pulls from, the current and lookahead tokens, and
the accumulated error messages.  The two dispatch maps are fixed at
construction, so they are embedded as the static functions `hasPrefixFn`,
`hasInfixFn` and the dispatch in `parseDispatch`. -/
structure PState where
  lex : Lexer
  curToken : Token
  peekToken : Token
  errors : List Str
deriving DecidableEq, Repr

/-- pNext models the parser's `nextToken` helper: shift the lookahead into
the current slot and pull one token from the scanner. -/
def pNext (s : PState) : PState :=
  let r := s.lex.nextToken
  { s with lex := r.2, curToken := s.peekToken, peekToken := r.1 }

/-- newParser models `parser.New`: start from the zero-valued token pair
(never observed) and pull two tokens so that both `curToken` and
`peekToken` are populated. -/
def newParser (input : Str) : PState :=
  pNext (pNext { lex := lexNew input,
                 curToken := { type := .ILLEGAL, literal := [] },
                 peekToken := { type := .ILLEGAL, literal := [] },
                 errors := [] })

/-- peekErrorMsg builds the `peekError` message
`expected next token to be %s, got %s instead`. -/
def peekErrorMsg (want got : TokenType) : Str :=
  "expected next token to be ".toList ++ tokenTypeStr want ++
    ", got ".toList ++ tokenTypeStr got ++ " instead".toList

/-- expectPeek models `expectPeek`: advance when the lookahead has the
wanted type, otherwise record a `peekError` and stay put. -/
def expectPeek (t : TokenType) (s : PState) : Bool × PState :=
  if s.peekToken.type = t then (true, pNext s)
  else (false, { s with errors := s.errors ++ [peekErrorMsg t s.peekToken.type] })

/-- noPrefixMsg builds the `noPrefixParseFnError` message
`no prefix parse function for %s found`. -/
def noPrefixMsg (t : TokenType) : Str :=
  "no prefix parse function for ".toList ++ tokenTypeStr t ++ " found".toList

/-- couldNotParseMsg builds the integer-conversion error message
`could not parse %q as integer`. -/
def couldNotParseMsg (lit : Str) : Str :=
  "could not parse ".toList ++ '"' :: lit ++ '"' :: " as integer".toList

/-- LOWEST is the lowest precedence constant (iota value 1). -/
def LOWEST : Nat := 1

/-- EQUALS is the precedence of `==` and `!=` (iota value 2). -/
def EQUALS : Nat := 2

/-- LESSGREATER is the precedence of `<` and `>` (iota value 3). -/
def LESSGREATER : Nat := 3

/-- SUM is the precedence of `+` and `-` (iota value 4). -/
def SUM : Nat := 4

/-- PRODUCT is the precedence of `*` and `/` (iota value 5). -/
def PRODUCT : Nat := 5

/-- PREFIX_PREC is the `PREFIX` precedence constant of the Go source
(iota value 6), renamed here to keep the identifier unambiguous. -/
def PREFIX_PREC : Nat := 6

/-- CALL is the precedence of call parentheses (iota value 7). -/
def CALL : Nat := 7

/-- precedenceOf models a lookup in the `precedences` map with the
`LOWEST` default used by `peekPrecedence` and `curPrecedence`. -/
def precedenceOf : TokenType → Nat
  | .EQ => EQUALS
  | .NOT_EQ => EQUALS
  | .LT => LESSGREATER
  | .GT => LESSGREATER
  | .PLUS => SUM
  | .MINUS => SUM
  | .SLASH => PRODUCT
  | .ASTERISK => PRODUCT
  | .LPAREN => CALL
  | _ => LOWEST

/-- hasPrefixFn records the token types registered in `prefixParseFns` by
`parser.New`. -/
def hasPrefixFn : TokenType → Bool
  | .IDENT | .INT | .BANG | .MINUS | .TRUE | .FALSE | .LPAREN => true
  | _ => false

/-- hasInfixFn records the token types registered in `infixParseFns` by
`parser.New`. -/
def hasInfixFn : TokenType → Bool
  | .PLUS | .MINUS | .SLASH | .ASTERISK | .EQ | .NOT_EQ | .LT | .GT => true
  | _ => false

/-- parserIntegerLiteral models the `parserIntegerLiteral` method (sic):
convert the current token's literal with `strconv.ParseInt(lit, 0, 64)`;
on error record `could not parse %q as integer` and return nil. -/
def parserIntegerLiteral (s : PState) : Expr × PState :=
  match goParseInt0 s.curToken.literal with
  | some v => (.intLit s.curToken v, s)
  | none =>
    (.nilE, { s with errors := s.errors ++ [couldNotParseMsg s.curToken.literal] })

/-- noPrefixError models `noPrefixParseFnError`: append the message for the
current token's type. -/
def noPrefixError (s : PState) : PState :=
  { s with errors := s.errors ++ [noPrefixMsg s.curToken.type] }

/-- PCall names the entry points of the mutually recursive expression
parser so that a single fuel-indexed function models the recursion:
`expr` is `parseExpression`, `exprLoop` its infix loop, `preE` is
`parsePrefixExpression`, `grouped` is `parseGroupedExpression` and `infE`
is `parseInfixExpression`. -/
inductive PCall where
  | expr (prec : Nat) (s : PState)
  | exprLoop (prec : Nat) (left : Expr) (s : PState)
  | preE (s : PState)
  | grouped (s : PState)
  | infE (left : Expr) (s : PState)

/-- parseDispatch runs the expression parser with explicit fuel; `none`
models running out of fuel, never a Go value.  The `expr` case is
`parseExpression`: dispatch on the registered prefix function for the
current token's type (recording `noPrefixParseFnError` and returning nil
when there is none), then run the infix loop.  The `exprLoop` case is the
`for !p.peekTokenIs(SEMICOLON) && precedence < p.peekPrecedence()` loop.
The remaining cases are the prefix/grouped/infix handler methods. -/
def parseDispatch : Nat → PCall → Option (Expr × PState)
  | 0, _ => none
  | fuel + 1, .expr prec s =>
    match s.curToken.type with
    | .IDENT => parseDispatch fuel (.exprLoop prec (.ident s.curToken s.curToken.literal) s)
    | .INT =>
      let r := parserIntegerLiteral s
      parseDispatch fuel (.exprLoop prec r.1 r.2)
    | .TRUE => parseDispatch fuel (.exprLoop prec (.boolean s.curToken true) s)
    | .FALSE => parseDispatch fuel (.exprLoop prec (.boolean s.curToken false) s)
    | .BANG =>
      (parseDispatch fuel (.preE s)).bind fun r =>
        parseDispatch fuel (.exprLoop prec r.1 r.2)
    | .MINUS =>
      (parseDispatch fuel (.preE s)).bind fun r =>
        parseDispatch fuel (.exprLoop prec r.1 r.2)
    | .LPAREN =>
      (parseDispatch fuel (.grouped s)).bind fun r =>
        parseDispatch fuel (.exprLoop prec r.1 r.2)
    | _ => some (.nilE, noPrefixError s)
  | fuel + 1, .exprLoop prec left s =>
    if s.peekToken.type ≠ .SEMICOLON ∧ prec < precedenceOf s.peekToken.type then
      if hasInfixFn s.peekToken.type then
        (parseDispatch fuel (.infE left (pNext s))).bind fun r =>
          parseDispatch fuel (.exprLoop prec r.1 r.2)
      else some (left, s)
    else some (left, s)
  | fuel + 1, .preE s =>
    let tok := s.curToken
    (parseDispatch fuel (.expr PREFIX_PREC (pNext s))).bind fun r =>
      some (.prefixE tok tok.literal r.1, r.2)
  | fuel + 1, .grouped s =>
    (parseDispatch fuel (.expr LOWEST (pNext s))).bind fun r =>
      let e := expectPeek .RPAREN r.2
      if e.1 then some (r.1, e.2) else some (.nilE, e.2)
  | fuel + 1, .infE left s =>
    let tok := s.curToken
    let prec := precedenceOf s.curToken.type
    (parseDispatch fuel (.expr prec (pNext s))).bind fun r =>
      some (.infixE tok left tok.literal r.1, r.2)

/-- parseExpression models `parseExpression(precedence)` with fuel. -/
def parseExpression (fuel prec : Nat) (s : PState) : Option (Expr × PState) :=
  parseDispatch fuel (.expr prec s)

/-- skipToSemicolon models the `for !p.curTokenIs(token.SEMICOLON)` skip
loops of `parseLetStatement` and `parseReturnStatement`; they have no exit
other than a SEMICOLON current token, so `none` at every fuel models the
loop running forever. -/
def skipToSemicolon : Nat → PState → Option PState
  | 0, _ => none
  | fuel + 1, s =>
    if s.curToken.type = .SEMICOLON then some s
    else skipToSemicolon fuel (pNext s)

/-- parseLetStatement models `parseLetStatement`: require IDENT then
ASSIGN (recording a peek error and returning the nil `*ast.LetStatement`
on failure), then skip to the semicolon; the value expression is never
parsed in this version. -/
def parseLetStatement (fuel : Nat) (s : PState) : Option (Stmt × PState) :=
  let tok := s.curToken
  let r1 := expectPeek .IDENT s
  if r1.1 then
    let nameTok := r1.2.curToken
    let r2 := expectPeek .ASSIGN r1.2
    if r2.1 then
      (skipToSemicolon fuel r2.2).map fun s3 =>
        (Stmt.letS tok nameTok nameTok.literal Expr.nilE, s3)
    else some (.letNil, r2.2)
  else some (.letNil, r1.2)

/-- parseReturnStatement models `parseReturnStatement`: advance past
`return`, then skip to the semicolon; the value expression is never parsed
in this version. -/
def parseReturnStatement (fuel : Nat) (s : PState) : Option (Stmt × PState) :=
  let tok := s.curToken
  (skipToSemicolon fuel (pNext s)).map fun s2 => (Stmt.returnS tok Expr.nilE, s2)

/-- parseExpressionStatement models `parseExpressionStatement`: parse one
expression at LOWEST, then consume an optional trailing semicolon; the
returned statement pointer is never nil. -/
def parseExpressionStatement (fuel : Nat) (s : PState) : Option (Stmt × PState) :=
  let tok := s.curToken
  (parseExpression fuel LOWEST s).map fun r =>
    let s2 := if r.2.peekToken.type = .SEMICOLON then pNext r.2 else r.2
    (Stmt.exprS tok r.1, s2)

/-- parseStatement models `parseStatement`: dispatch on the current
token's type. -/
def parseStatement (fuel : Nat) (s : PState) : Option (Stmt × PState) :=
  if s.curToken.type = .LET then parseLetStatement fuel s
  else if s.curToken.type = .RETURN then parseReturnStatement fuel s
  else parseExpressionStatement fuel s

/-- parseProgramLoop models the `for p.curToken.Type != token.EOF` loop of
`ParseProgram`.  Go guards the append with `stmt != nil` on the interface
value; `parseStatement` always returns a typed statement pointer (possibly
a nil `*ast.LetStatement`), so the interface is never nil and the append
always happens. -/
def parseProgramLoop : Nat → PState → List Stmt → Option (List Stmt × PState)
  | 0, _, _ => none
  | fuel + 1, s, acc =>
    if s.curToken.type = .EOF then some (acc, s)
    else
      (parseStatement fuel s).bind fun r =>
        parseProgramLoop fuel (pNext r.2) (acc ++ [r.1])

/-- parseProgram models `ParseProgram` with fuel: `none` means the fuel
ran out (the Go call has not returned). -/
def parseProgram (fuel : Nat) (s : PState) : Option (Program × PState) :=
  (parseProgramLoop fuel s []).map fun r => ({ statements := r.1 }, r.2)

/-- parseSource builds a fresh lexer and parser for the input and runs
`ParseProgram` with a fuel that is generous for every terminating run used
below, returning the program and the parser's error list. -/
def parseSource (input : Str) : Option (Program × List Str) :=
  (parseProgram (4 * input.length + 16) (newParser input)).map fun r =>
    (r.1, r.2.errors)

/-- letInput is the input `let x = 5`: a let statement whose terminating
semicolon is absent. -/
def letInput : Str := "let x = 5".toList

/-! Basic scanner lemmas. -/

/-- charAtOrNul_past: past the end of the input the scanner reads the 0
sentinel. -/
theorem charAtOrNul_past (input : Str) (i : Nat) (h : input.length ≤ i) :
    charAtOrNul input i = nulChar :=
  List.getD_eq_default input nulChar h

/-- skipWhitespace_of_not: the whitespace loop is the identity when the
current character is not whitespace. -/
theorem skipWhitespace_of_not (l : Lexer) (h : isWhitespaceCh l.ch = false) :
    l.skipWhitespace = l := by
  unfold Lexer.skipWhitespace
  cases hn : l.input.length + 1 - l.position with
  | zero => rfl
  | succ k => simp [skipWsAux, h]

/-- nextToken_atEnd: with the position at or past the end of the input,
`NextToken` returns the end-of-input token with empty literal and merely
advances the position. -/
theorem nextToken_atEnd (l : Lexer) (h : l.input.length ≤ l.position) :
    l.nextToken = ({ type := .EOF, literal := [] }, l.readChar) := by
  have hch : l.ch = nulChar := charAtOrNul_past l.input l.position h
  have hskip : l.skipWhitespace = l :=
    skipWhitespace_of_not l (by rw [hch]; decide)
  rw [Lexer.nextToken, hskip]
  rw [nextTokenCore]
  simp only [hch]
  simp only [nulChar]
  repeat rw [if_neg (by decide)]
  simp

/-- skipWsAux_input: the whitespace loop does not change the input. -/
theorem skipWsAux_input : ∀ (n : Nat) (l : Lexer), (skipWsAux n l).input = l.input := by
  intro n
  induction n with
  | zero => intro l; rfl
  | succ k ih =>
    intro l
    simp only [skipWsAux]
    by_cases h : isWhitespaceCh l.ch
    · simp only [h, if_true]; exact ih l.readChar
    · simp [h]

/-- skipWsAux_pos_le: the whitespace loop never moves the position left. -/
theorem skipWsAux_pos_le : ∀ (n : Nat) (l : Lexer), l.position ≤ (skipWsAux n l).position := by
  intro n
  induction n with
  | zero => intro l; exact Nat.le_refl _
  | succ k ih =>
    intro l
    simp only [skipWsAux]
    by_cases h : isWhitespaceCh l.ch
    · simp only [h, if_true]
      exact Nat.le_trans (Nat.le_succ _) (ih l.readChar)
    · simp [h]

/-- identLoopAux_input: the identifier loop does not change the input. -/
theorem identLoopAux_input : ∀ (n : Nat) (l : Lexer), (identLoopAux n l).input = l.input := by
  intro n
  induction n with
  | zero => intro l; rfl
  | succ k ih =>
    intro l
    simp only [identLoopAux]
    by_cases h : isLetter l.ch
    · simp only [h, if_true]; exact ih l.readChar
    · simp [h]

/-- identLoopAux_pos_le: the identifier loop never moves the position left. -/
theorem identLoopAux_pos_le : ∀ (n : Nat) (l : Lexer), l.position ≤ (identLoopAux n l).position := by
  intro n
  induction n with
  | zero => intro l; exact Nat.le_refl _
  | succ k ih =>
    intro l
    simp only [identLoopAux]
    by_cases h : isLetter l.ch
    · simp only [h, if_true]
      exact Nat.le_trans (Nat.le_succ _) (ih l.readChar)
    · simp [h]

/-- numberLoopAux_input: the digit loop does not change the input. -/
theorem numberLoopAux_input : ∀ (n : Nat) (l : Lexer), (numberLoopAux n l).input = l.input := by
  intro n
  induction n with
  | zero => intro l; rfl
  | succ k ih =>
    intro l
    simp only [numberLoopAux]
    by_cases h : isDisit l.ch
    · simp only [h, if_true]; exact ih l.readChar
    · simp [h]

/-- numberLoopAux_pos_le: the digit loop never moves the position left. -/
theorem numberLoopAux_pos_le : ∀ (n : Nat) (l : Lexer), l.position ≤ (numberLoopAux n l).position := by
  intro n
  induction n with
  | zero => intro l; exact Nat.le_refl _
  | succ k ih =>
    intro l
    simp only [numberLoopAux]
    by_cases h : isDisit l.ch
    · simp only [h, if_true]
      exact Nat.le_trans (Nat.le_succ _) (ih l.readChar)
    · simp [h]

/-- ch_in_range: a current character other than the sentinel can only come
from inside the input. -/
theorem ch_in_range (l : Lexer) (h : l.ch ≠ nulChar) : l.position < l.input.length := by
  by_contra hge
  exact h (charAtOrNul_past l.input l.position (Nat.le_of_not_lt hge))

/-- identLoop_pos_lt: when the current character is a letter, the
identifier loop advances at least one position. -/
theorem identLoop_pos_lt (l : Lexer) (h : isLetter l.ch = true) :
    l.position < (identLoop l).position := by
  have hlt : l.position < l.input.length := by
    apply ch_in_range
    intro hnul
    rw [hnul] at h
    exact absurd h (by decide)
  obtain ⟨k, hk⟩ : ∃ k, l.input.length + 1 - l.position = k + 1 :=
    ⟨l.input.length - l.position, by omega⟩
  rw [identLoop, hk]
  simp only [identLoopAux, h, if_true]
  exact Nat.lt_of_lt_of_le (Nat.lt_succ_self _) (identLoopAux_pos_le k l.readChar)

/-- numberLoop_pos_lt: when the current character is a digit, the digit
loop advances at least one position. -/
theorem numberLoop_pos_lt (l : Lexer) (h : isDisit l.ch = true) :
    l.position < (numberLoop l).position := by
  have hlt : l.position < l.input.length := by
    apply ch_in_range
    intro hnul
    rw [hnul] at h
    exact absurd h (by decide)
  obtain ⟨k, hk⟩ : ∃ k, l.input.length + 1 - l.position = k + 1 :=
    ⟨l.input.length - l.position, by omega⟩
  rw [numberLoop, hk]
  simp only [numberLoopAux, h, if_true]
  exact Nat.lt_of_lt_of_le (Nat.lt_succ_self _) (numberLoopAux_pos_le k l.readChar)

/-- LookupTokenType_ne_eof: the keyword table only yields keyword or
identifier kinds, never EOF. -/
theorem LookupTokenType_ne_eof (s : Str) : LookupTokenType s ≠ .EOF := by
  rw [LookupTokenType]
  split_ifs <;> decide

/-- nextTokenCoreShape: each dispatch branch of `NextToken` either steps
the scanner by `readChar` (once, or twice for the two-character
operators), or runs the identifier/number loop under its guard; and the
only branch emitting an EOF token is the 0-sentinel branch. -/
theorem nextTokenCoreShape (l : Lexer) :
    ((nextTokenCore l).2 = l.readChar ∨ (nextTokenCore l).2 = l.readChar.readChar ∨
      ((nextTokenCore l).2 = identLoop l ∧ isLetter l.ch = true) ∨
      ((nextTokenCore l).2 = numberLoop l ∧ isDisit l.ch = true)) ∧
    ((nextTokenCore l).1.type = .EOF → l.ch = nulChar) := by
  unfold nextTokenCore
  by_cases h1 : l.ch = '='
  · rw [if_pos h1]
    by_cases hp : l.peekChar = '='
    · rw [if_pos hp]
      exact ⟨Or.inr (Or.inl rfl), fun h => TokenType.noConfusion h⟩
    · rw [if_neg hp]
      exact ⟨Or.inl rfl, fun h => TokenType.noConfusion h⟩
  · rw [if_neg h1]
    by_cases h2 : l.ch = '+'
    · rw [if_pos h2]
      exact ⟨Or.inl rfl, fun h => TokenType.noConfusion h⟩
    · rw [if_neg h2]
      by_cases h3 : l.ch = '-'
      · rw [if_pos h3]
        exact ⟨Or.inl rfl, fun h => TokenType.noConfusion h⟩
      · rw [if_neg h3]
        by_cases h4 : l.ch = '!'
        · rw [if_pos h4]
          by_cases hp : l.peekChar = '='
          · rw [if_pos hp]
            exact ⟨Or.inr (Or.inl rfl), fun h => TokenType.noConfusion h⟩
          · rw [if_neg hp]
            exact ⟨Or.inl rfl, fun h => TokenType.noConfusion h⟩
        · rw [if_neg h4]
          by_cases h5 : l.ch = '/'
          · rw [if_pos h5]
            exact ⟨Or.inl rfl, fun h => TokenType.noConfusion h⟩
          · rw [if_neg h5]
            by_cases h6 : l.ch = '*'
            · rw [if_pos h6]
              exact ⟨Or.inl rfl, fun h => TokenType.noConfusion h⟩
            · rw [if_neg h6]
              by_cases h7 : l.ch = '<'
              · rw [if_pos h7]
                exact ⟨Or.inl rfl, fun h => TokenType.noConfusion h⟩
              · rw [if_neg h7]
                by_cases h8 : l.ch = '>'
                · rw [if_pos h8]
                  exact ⟨Or.inl rfl, fun h => TokenType.noConfusion h⟩
                · rw [if_neg h8]
                  by_cases h9 : l.ch = ';'
                  · rw [if_pos h9]
                    exact ⟨Or.inl rfl, fun h => TokenType.noConfusion h⟩
                  · rw [if_neg h9]
                    by_cases h10 : l.ch = ','
                    · rw [if_pos h10]
                      exact ⟨Or.inl rfl, fun h => TokenType.noConfusion h⟩
                    · rw [if_neg h10]
                      by_cases h11 : l.ch = '\x7b'
                      · rw [if_pos h11]
                        exact ⟨Or.inl rfl, fun h => TokenType.noConfusion h⟩
                      · rw [if_neg h11]
                        by_cases h12 : l.ch = '\x7d'
                        · rw [if_pos h12]
                          exact ⟨Or.inl rfl, fun h => TokenType.noConfusion h⟩
                        · rw [if_neg h12]
                          by_cases h13 : l.ch = '('
                          · rw [if_pos h13]
                            exact ⟨Or.inl rfl, fun h => TokenType.noConfusion h⟩
                          · rw [if_neg h13]
                            by_cases h14 : l.ch = ')'
                            · rw [if_pos h14]
                              exact ⟨Or.inl rfl, fun h => TokenType.noConfusion h⟩
                            · rw [if_neg h14]
                              by_cases h15 : l.ch = nulChar
                              · rw [if_pos h15]
                                exact ⟨Or.inl rfl, fun _ => h15⟩
                              · rw [if_neg h15]
                                by_cases h16 : isLetter l.ch
                                · rw [if_pos h16]
                                  exact ⟨Or.inr (Or.inr (Or.inl ⟨rfl, h16⟩)),
                                    fun h => absurd h (LookupTokenType_ne_eof _)⟩
                                · rw [if_neg h16]
                                  by_cases h17 : isDisit l.ch
                                  · rw [if_pos h17]
                                    exact ⟨Or.inr (Or.inr (Or.inr ⟨rfl, h17⟩)),
                                      fun h => TokenType.noConfusion h⟩
                                  · rw [if_neg h17]
                                    exact ⟨Or.inl rfl, fun h => TokenType.noConfusion h⟩

/-- nextTokenCore_input: one dispatch step keeps the input unchanged. -/
theorem nextTokenCore_input (l : Lexer) : (nextTokenCore l).2.input = l.input := by
  rcases (nextTokenCoreShape l).1 with h | h | ⟨h, -⟩ | ⟨h, -⟩ <;> rw [h]
  · rfl
  · rfl
  · exact identLoopAux_input _ _
  · exact numberLoopAux_input _ _

/-- nextToken_input: `NextToken` keeps the input unchanged. -/
theorem nextToken_input (l : Lexer) : (l.nextToken).2.input = l.input := by
  rw [Lexer.nextToken, nextTokenCore_input]
  exact skipWsAux_input _ _

/-- nextTokenCore_pos_gt: one dispatch step strictly advances the
position. -/
theorem nextTokenCore_pos_gt (l : Lexer) : l.position < (nextTokenCore l).2.position := by
  rcases (nextTokenCoreShape l).1 with h | h | ⟨h, hg⟩ | ⟨h, hg⟩ <;> rw [h]
  · exact Nat.lt_succ_self _
  · exact Nat.lt_of_lt_of_le (Nat.lt_succ_self _) (Nat.le_succ _)
  · exact identLoop_pos_lt l hg
  · exact numberLoop_pos_lt l hg

/-- nextToken_pos_gt: every `NextToken` call strictly advances the
position. -/
theorem nextToken_pos_gt (l : Lexer) : l.position < (l.nextToken).2.position := by
  rw [Lexer.nextToken]
  exact Nat.lt_of_le_of_lt (skipWsAux_pos_le _ _) (nextTokenCore_pos_gt _)

/-- atEnd_step: past the end, `NextToken` returns the end-of-input token
and the next state is again past the end. -/
theorem atEnd_step (l : Lexer) (h : l.atEnd) :
    (l.nextToken).1.type = .EOF ∧ (l.nextToken).2.atEnd := by
  have heq := nextToken_atEnd l h
  rw [heq]
  refine ⟨rfl, ?_⟩
  show l.readChar.input.length ≤ l.readChar.position
  simp only [Lexer.readChar]
  exact Nat.le_trans h (Nat.le_succ _)

/-- nextToken_eof_atEnd: on an input containing no 0 byte, a call
returning the end-of-input token leaves the scanner past the end of the
input. -/
theorem nextToken_eof_atEnd (l : Lexer) (hfree : nulChar ∉ l.input)
    (h : (l.nextToken).1.type = .EOF) : (l.nextToken).2.atEnd := by
  rw [Lexer.nextToken] at h ⊢
  have hnul : (l.skipWhitespace).ch = nulChar := (nextTokenCoreShape _).2 h
  have hend : l.skipWhitespace.atEnd := by
    show l.skipWhitespace.input.length ≤ l.skipWhitespace.position
    by_contra hlt
    have hmem : l.skipWhitespace.ch ∈ l.skipWhitespace.input := by
      rw [Lexer.ch, charAtOrNul, List.getD_eq_getElem _ _ (Nat.lt_of_not_le hlt)]
      exact List.getElem_mem _
    rw [hnul, Lexer.skipWhitespace, skipWsAux_input] at hmem
    exact hfree hmem
  have heq := nextToken_atEnd l.skipWhitespace hend
  rw [Lexer.nextToken, skipWhitespace_of_not _ (by rw [hnul]; decide)] at heq
  rw [heq]
  show l.skipWhitespace.readChar.input.length ≤ l.skipWhitespace.readChar.position
  simp only [Lexer.readChar]
  exact Nat.le_trans hend (Nat.le_succ _)

/-- lexRun_input: every scanner state reachable from `lexer.New` carries
the original input. -/
theorem lexRun_input (src : Str) : ∀ (n : Nat), (lexRun src n).input = src := by
  intro n
  induction n with
  | zero => rfl
  | succ k ih => rw [lexRun, nextToken_input, ih]

/-- lexRun_pos_ge: after `n` calls the position is at least `n`. -/
theorem lexRun_pos_ge (src : Str) : ∀ (n : Nat), n ≤ (lexRun src n).position := by
  intro n
  induction n with
  | zero => exact Nat.zero_le _
  | succ k ih =>
    rw [lexRun]
    exact Nat.lt_of_le_of_lt ih (nextToken_pos_gt _)

/-! Divergence of the let-statement skip loop (claim C1). -/

/-- skipToSemicolon_stuck: once the parser sees only EOF tokens (current
and lookahead EOF, scanner at or past the end), the skip-to-semicolon loop
exhausts every fuel: the Go loop runs forever. -/
theorem skipToSemicolon_stuck :
    ∀ (n : Nat) (s : PState), s.curToken.type = .EOF → s.peekToken.type = .EOF →
      s.lex.input.length ≤ s.lex.position → skipToSemicolon n s = none := by
  intro n
  induction n with
  | zero => intro s _ _ _; rfl
  | succ k ih =>
    intro s h1 h2 h3
    rw [skipToSemicolon]
    rw [if_neg (by rw [h1]; decide)]
    apply ih
    · simpa [pNext] using h2
    · have := nextToken_atEnd s.lex h3
      simp [pNext, this]
    · have := nextToken_atEnd s.lex h3
      simp [pNext, this, Lexer.readChar]
      omega

/-- c1_skip_diverges: on the input `let x = 5` (no terminating semicolon)
the skip loop inside `parseLetStatement` returns `none` at every fuel. -/
theorem c1_skip_diverges :
    ∀ (n : Nat),
      skipToSemicolon n (pNext (pNext (newParser letInput))) = none := by
  intro n
  match n with
  | 0 => rfl
  | 1 => decide
  | (m + 2) =>
    simp only [skipToSemicolon]
    rw [if_neg (by decide), if_neg (by decide)]
    exact skipToSemicolon_stuck m _ (by decide) (by decide) (by decide)

/-- C1: the claim says a single `ParseProgram` call terminates on every
input, including a let statement whose semicolon is absent.  In fact, on
the input `let x = 5` the `parseLetStatement` skip loop never sees a
SEMICOLON current token (the scanner returns EOF tokens forever), so
`ParseProgram` runs out of every fuel: the Go call never returns. -/
theorem c1_parseProgram_diverges_on_let_without_semicolon :
    ∀ (fuel : Nat), parseProgram fuel (newParser letInput) = none := by
  intro fuel
  cases fuel with
  | zero => rfl
  | succ n =>
    have h := c1_skip_diverges n
    have hstmt : parseStatement n (newParser letInput) = none := by
      simp +decide [parseStatement, parseLetStatement, expectPeek, h]
    simp +decide [parseProgram, parseProgramLoop, hstmt]

/-! Concrete claim evaluations. -/

/-- C2: the keyword table of `token/token.go` contains only `fn` and
`let`, so `LookupTokenType` sends the literal `return` to the generic
identifier kind, and `ParseProgram` on `return 5;` produces two expression
statements (an identifier and an integer literal) instead of the single
`ReturnStatement` the specification and the repository's own
`TestReturnStatements` expect. -/
theorem c2_return_lexed_as_identifier :
    LookupTokenType "return".toList = TokenType.IDENT ∧
    parseSource "return 5;".toList =
      some ({ statements := [
          Stmt.exprS { type := .IDENT, literal := "return".toList }
            (Expr.ident { type := .IDENT, literal := "return".toList } "return".toList),
          Stmt.exprS { type := .INT, literal := "5".toList }
            (Expr.intLit { type := .INT, literal := "5".toList } 5)] }, []) :=
  ⟨rfl, rfl⟩

/-- C3 counterexample: on the input `+` (whose only token has no prefix
parse function) the returned program has one statement, not zero, while
one error is recorded: `parseExpressionStatement` always returns a non-nil
statement pointer, even when its expression failed to parse. -/
theorem c3_counterexample :
    ((parseSource "+".toList).map fun r => (r.1.statements.length, r.2.length)) =
      some (1, 1) := rfl

/-- C3 amended: `ParseProgram` on `+` yields a program whose single
statement is an `ExpressionStatement` wrapping an absent (nil) expression,
together with the non-empty error list containing the
no-prefix-parse-function error; whenever the parse completes a program
value is returned (there is no null result). -/
theorem c3_amended_failed_statement_still_appended :
    parseSource "+".toList =
      some ({ statements := [Stmt.exprS { type := .PLUS, literal := "+".toList } Expr.nilE] },
        [noPrefixMsg .PLUS]) := rfl

/-- C4: the precedence table orders EQUALS < LESSGREATER < SUM < PRODUCT,
and the parser is left-associative at equal precedence because
`parseInfixExpression` recurses at the operator's own precedence: the
three renders required by the specification hold. -/
theorem c4_left_assoc_and_precedence :
    EQUALS < LESSGREATER ∧ LESSGREATER < SUM ∧ SUM < PRODUCT ∧
    ((parseSource "a + b * c".toList).map fun r => programStringV2 r.1) =
      some "(a + (b * c))".toList ∧
    ((parseSource "a + b + c".toList).map fun r => programStringV2 r.1) =
      some "((a + b) + c)".toList ∧
    ((parseSource "1 + (2 + 3) + 4".toList).map fun r => programStringV2 r.1) =
      some "((1 + (2 + 3)) + 4)".toList :=
  ⟨by decide, by decide, by decide, rfl, rfl, rfl⟩

/-- C6: each operator and delimiter input produces exactly one token of
the matching kind whose literal is the input itself (one combined token
for `==` and `!=`), followed by the end-of-input token with empty
literal. -/
theorem c6_single_operator_tokens :
    lexTokens 2 (lexNew "=".toList) = [{ type := .ASSIGN, literal := "=".toList }, { type := .EOF, literal := [] }] ∧
    lexTokens 2 (lexNew "+".toList) = [{ type := .PLUS, literal := "+".toList }, { type := .EOF, literal := [] }] ∧
    lexTokens 2 (lexNew "-".toList) = [{ type := .MINUS, literal := "-".toList }, { type := .EOF, literal := [] }] ∧
    lexTokens 2 (lexNew "!".toList) = [{ type := .BANG, literal := "!".toList }, { type := .EOF, literal := [] }] ∧
    lexTokens 2 (lexNew "*".toList) = [{ type := .ASTERISK, literal := "*".toList }, { type := .EOF, literal := [] }] ∧
    lexTokens 2 (lexNew "/".toList) = [{ type := .SLASH, literal := "/".toList }, { type := .EOF, literal := [] }] ∧
    lexTokens 2 (lexNew "<".toList) = [{ type := .LT, literal := "<".toList }, { type := .EOF, literal := [] }] ∧
    lexTokens 2 (lexNew ">".toList) = [{ type := .GT, literal := ">".toList }, { type := .EOF, literal := [] }] ∧
    lexTokens 2 (lexNew "==".toList) = [{ type := .EQ, literal := "==".toList }, { type := .EOF, literal := [] }] ∧
    lexTokens 2 (lexNew "!=".toList) = [{ type := .NOT_EQ, literal := "!=".toList }, { type := .EOF, literal := [] }] ∧
    lexTokens 2 (lexNew ",".toList) = [{ type := .COMMA, literal := ",".toList }, { type := .EOF, literal := [] }] ∧
    lexTokens 2 (lexNew ";".toList) = [{ type := .SEMICOLON, literal := ";".toList }, { type := .EOF, literal := [] }] ∧
    lexTokens 2 (lexNew "(".toList) = [{ type := .LPAREN, literal := "(".toList }, { type := .EOF, literal := [] }] ∧
    lexTokens 2 (lexNew ")".toList) = [{ type := .RPAREN, literal := ")".toList }, { type := .EOF, literal := [] }] ∧
    lexTokens 2 (lexNew ['\x7b']) = [{ type := .LBRACE, literal := ['\x7b'] }, { type := .EOF, literal := [] }] ∧
    lexTokens 2 (lexNew ['\x7d']) = [{ type := .RBRACE, literal := ['\x7d'] }, { type := .EOF, literal := [] }] :=
  ⟨rfl, rfl, rfl, rfl, rfl, rfl, rfl, rfl, rfl, rfl, rfl, rfl, rfl, rfl, rfl, rfl⟩

/-- C7 counterexample: on the input consisting of a 0 byte followed by
`+`, the first `NextToken` call returns the end-of-input token (the 0 byte
hits the sentinel case), yet the second call returns a PLUS token: the
claimed idempotence at end-of-input fails for this input string. -/
theorem c7_counterexample :
    (((lexNew [nulChar, '+']).nextToken).1.type = TokenType.EOF ∧
      ((((lexNew [nulChar, '+']).nextToken).2).nextToken).1.type = TokenType.PLUS) ∧
    TokenType.PLUS ≠ TokenType.EOF :=
  ⟨⟨rfl, rfl⟩, by decide⟩

/-- C7 amended: on every input string that does not contain the 0 byte,
once a `NextToken` call (after `n` previous calls on a fresh scanner)
returns the end-of-input token, every subsequent call also returns the
end-of-input token; each call returns exactly one token by construction. -/
theorem c7_amended_eof_idempotent_without_nul :
    ∀ (src : Str), nulChar ∉ src → ∀ (n m : Nat),
      ((lexRun src n).nextToken).1.type = .EOF →
      ((lexRun src (n + m)).nextToken).1.type = .EOF := by
  intro src hfree n m hEOF
  have hend : ∀ (j : Nat), (lexRun src (n + 1 + j)).atEnd := by
    intro j
    induction j with
    | zero =>
      have h := nextToken_eof_atEnd (lexRun src n)
        (by rw [lexRun_input]; exact hfree) hEOF
      exact h
    | succ k ih =>
      have h := (atEnd_step _ ih).2
      have harith : n + 1 + (k + 1) = (n + 1 + k) + 1 := by omega
      rw [harith, lexRun]
      exact h
  cases m with
  | zero => exact hEOF
  | succ j =>
    have harith : n + (j + 1) = n + 1 + j := by omega
    rw [harith]
    exact (atEnd_step _ (hend j)).1

/-- c7_amended_eof_idempotent_without_nul_witness instantiates the amended
claim on the input `+`: the second call returns EOF, hence so does the
third. -/
theorem c7_amended_eof_idempotent_without_nul_witness :
    nulChar ∉ "+".toList ∧
    ((lexRun "+".toList 1).nextToken).1.type = .EOF ∧
    ((lexRun "+".toList (1 + 1)).nextToken).1.type = .EOF :=
  ⟨by decide, rfl,
    c7_amended_eof_idempotent_without_nul "+".toList (by decide) 1 1 rfl⟩

/-- C8: any byte that is not whitespace, not one of the characters with an
explicit switch case (the operators and delimiters, and the 0 end-of-input
sentinel), not an ASCII letter or underscore, and not an ASCII digit
produces an ILLEGAL token carrying exactly that byte, and the scanner
steps past it so that the next call inspects the following character. -/
theorem c8_illegal_byte :
    ∀ (l : Lexer) (c : Char), l.ch = c →
      isWhitespaceCh c = false →
      c ∉ ['=', '+', '-', '!', '/', '*', '<', '>', ';', ',', '\x7b', '\x7d', '(', ')', nulChar] →
      isLetter c = false → isDisit c = false →
      l.nextToken = ({ type := .ILLEGAL, literal := [c] }, l.readChar) := by
  intro l c hch hws hmem hlet hdig
  have hskip : l.skipWhitespace = l := skipWhitespace_of_not l (by rw [hch]; exact hws)
  rw [Lexer.nextToken, hskip]
  rw [nextTokenCore]
  simp only [hch]
  simp only [List.mem_cons, List.not_mem_nil, or_false, not_or] at hmem
  obtain ⟨h1, h2, h3, h4, h5, h6, h7, h8, h9, h10, h11, h12, h13, h14, h15⟩ := hmem
  rw [if_neg h1, if_neg h2, if_neg h3, if_neg h4, if_neg h5, if_neg h6, if_neg h7,
    if_neg h8, if_neg h9, if_neg h10, if_neg h11, if_neg h12, if_neg h13, if_neg h14,
    if_neg h15]
  rw [if_neg (by rw [hlet]; exact Bool.false_ne_true)]
  rw [if_neg (by rw [hdig]; exact Bool.false_ne_true)]
  rfl

/-- c8_illegal_byte_witness instantiates C8 at the byte `@` followed by
`x`: the first token is ILLEGAL with literal `@`, and the next call starts
at the following character. -/
theorem c8_illegal_byte_witness :
    (lexNew ['@', 'x']).nextToken =
      ({ type := .ILLEGAL, literal := ['@'] }, (lexNew ['@', 'x']).readChar) :=
  c8_illegal_byte (lexNew ['@', 'x']) '@' rfl (by decide) (by decide) (by decide) (by decide)

/-- C10: every `NextToken` call either returns an EOF token or strictly
increases the scanner position (in fact the position always strictly
increases), and on any input the scanner reaches the end-of-input token
after at most `input.length` calls. -/
theorem c10_progress_and_termination :
    (∀ (l : Lexer), (l.nextToken).1.type = .EOF ∨ l.position < (l.nextToken).2.position) ∧
    (∀ (src : Str), ((lexRun src src.length).nextToken).1.type = .EOF) := by
  constructor
  · intro l
    exact Or.inr (nextToken_pos_gt l)
  · intro src
    have hend : (lexRun src src.length).atEnd := by
      show (lexRun src src.length).input.length ≤ (lexRun src src.length).position
      rw [lexRun_input]
      exact lexRun_pos_ge src src.length
    exact (atEnd_step _ hend).1

/-! Characterisation of the integer-literal conversion (claim C5). -/

/-- isDisit_bounds: a digit character has byte value between 48 and 57. -/
theorem isDisit_bounds (c : Char) (h : isDisit c = true) :
    48 ≤ c.toNat ∧ c.toNat ≤ 57 := by
  rw [isDisit] at h
  simp only [Bool.and_eq_true, decide_eq_true_eq] at h
  exact h

/-- digitVal_digit: on a digit character the digit decoder yields its
numeric value. -/
theorem digitVal_digit (c : Char) (h : isDisit c = true) :
    digitVal c = some (c.toNat - 48) := by
  rw [digitVal, if_pos (isDisit_bounds c h)]

/-- parseDigitsAux_all_lt: when every character is a digit below the base,
the accumulating loop computes the positional value. -/
theorem parseDigitsAux_all_lt (base : Nat) :
    ∀ (ds : Str) (acc : Nat), (∀ c ∈ ds, isDisit c = true ∧ c.toNat - 48 < base) →
      parseDigitsAux base acc ds =
        some (ds.foldl (fun a c => a * base + (c.toNat - 48)) acc) := by
  intro ds
  induction ds with
  | nil => intro acc _; rfl
  | cons c cs ih =>
    intro acc h
    obtain ⟨hd, hlt⟩ := h c (List.mem_cons_self _ _)
    simp only [parseDigitsAux]
    rw [digitVal_digit c hd]
    simp only
    rw [if_pos hlt]
    rw [ih _ (fun x hx => h x (List.mem_cons_of_mem _ hx))]
    rfl

/-- parseDigitsAux_bad_octal: a digit string holding a digit above 7 is a
syntax error in base 8. -/
theorem parseDigitsAux_bad_octal :
    ∀ (ds : Str) (acc : Nat), (∀ c ∈ ds, isDisit c = true) →
      ¬(∀ c ∈ ds, c.toNat ≤ 55) → parseDigitsAux 8 acc ds = none := by
  intro ds
  induction ds with
  | nil => intro acc _ hbad; exact absurd (by intro c hc; cases hc) hbad
  | cons c cs ih =>
    intro acc hall hbad
    have hd := hall c (List.mem_cons_self _ _)
    have hbounds := isDisit_bounds c hd
    simp only [parseDigitsAux]
    rw [digitVal_digit c hd]
    simp only
    by_cases hc : c.toNat ≤ 55
    · rw [if_pos (by omega)]
      apply ih _ (fun x hx => hall x (List.mem_cons_of_mem _ hx))
      intro hgood
      exact hbad (by
        intro x hx
        rcases List.mem_cons.mp hx with rfl | hx2
        · exact hc
        · exact hgood x hx2)
    · rw [if_neg (by omega)]

/-- goParseUint_decimal: on a non-empty all-digit string, base-10 reading
computes the decimal value. -/
theorem goParseUint_decimal (ds : Str) (hne : ds ≠ [])
    (hdig : ∀ c ∈ ds, isDisit c = true) :
    goParseUint 10 ds = some (natOfDigits 10 ds) := by
  cases ds with
  | nil => exact absurd rfl hne
  | cons c cs =>
    show parseDigitsAux 10 0 (c :: cs) = _
    rw [parseDigitsAux_all_lt 10 (c :: cs) 0]
    · rfl
    · intro x hx
      have := isDisit_bounds x (hdig x hx)
      exact ⟨hdig x hx, by omega⟩

/-- goParseInt0Core_digits: on non-empty all-digit literals the base
inference reads a leading-zero literal of length at least two in octal and
everything else in decimal. -/
theorem goParseInt0Core_digits (lit : Str) (hne : lit ≠ [])
    (hdig : ∀ c ∈ lit, isDisit c = true) :
    goParseInt0Core lit =
      if 2 ≤ lit.length ∧ lit.headI = '0' then
        if ∀ c ∈ lit.tail, c.toNat ≤ 55 then some (natOfDigits 8 lit.tail) else none
      else some (natOfDigits 10 lit) := by
  match lit with
  | [] => exact absurd rfl hne
  | [c] =>
    rw [if_neg (by simp)]
    show goParseUint 10 [c] = _
    rw [goParseUint_decimal [c] (by simp) hdig]
  | c0 :: c1 :: rest =>
    have hc1 := isDisit_bounds c1 (hdig c1 (by simp))
    by_cases h0 : c0 = '0'
    · subst h0
      have hx : ¬(c1 = 'x' ∨ c1 = 'X') := by
        rintro (rfl | rfl) <;> revert hc1 <;> decide
      have ho : ¬(c1 = 'o' ∨ c1 = 'O') := by
        rintro (rfl | rfl) <;> revert hc1 <;> decide
      have hb : ¬(c1 = 'b' ∨ c1 = 'B') := by
        rintro (rfl | rfl) <;> revert hc1 <;> decide
      simp only [goParseInt0Core]
      rw [if_pos trivial, if_neg hx, if_neg ho, if_neg hb,
        if_pos ⟨by simp only [List.length_cons]; omega, rfl⟩]
      show parseDigitsAux 8 0 (c1 :: rest) = _
      by_cases hoct : ∀ c ∈ c1 :: rest, c.toNat ≤ 55
      · rw [if_pos (by simpa using hoct)]
        rw [parseDigitsAux_all_lt 8 (c1 :: rest) 0]
        · rfl
        · intro x hx2
          have hb2 := isDisit_bounds x (hdig x (List.mem_cons_of_mem _ hx2))
          have hle := hoct x hx2
          exact ⟨hdig x (List.mem_cons_of_mem _ hx2), by omega⟩
      · rw [if_neg (by simpa using hoct)]
        exact parseDigitsAux_bad_octal (c1 :: rest) 0
          (fun x hx2 => hdig x (List.mem_cons_of_mem _ hx2)) hoct
    · simp only [goParseInt0Core]
      rw [if_neg h0, if_neg (by
        rintro ⟨-, hhead⟩
        exact h0 hhead)]
      exact goParseUint_decimal _ (by simp) hdig

/-- goParseInt0_digits: on non-empty all-digit literals,
`strconv.ParseInt(lit, 0, 64)` succeeds with the value described by
`intLiteralSpec` and fails exactly when that characterisation fails. -/
theorem goParseInt0_digits (lit : Str) (hne : lit ≠ [])
    (hdig : ∀ c ∈ lit, isDisit c = true) :
    goParseInt0 lit =
      match intLiteralSpec lit with
      | some v => some (v : Int)
      | none => none := by
  rw [goParseInt0, goParseInt0Core_digits lit hne hdig, intLiteralSpec]
  by_cases h1 : 2 ≤ lit.length ∧ lit.headI = '0'
  · rw [if_pos h1, if_pos h1]
    by_cases h2 : ∀ c ∈ lit.tail, c.toNat ≤ 55
    · rw [if_pos h2]
      by_cases h3 : natOfDigits 8 lit.tail ≤ maxInt64
      · rw [if_pos ⟨h2, h3⟩]
        simp [h3]
      · rw [if_neg (by rintro ⟨-, hc⟩; exact h3 hc)]
        simp [h3]
    · rw [if_neg h2, if_neg (by rintro ⟨hc, -⟩; exact h2 hc)]
  · rw [if_neg h1, if_neg h1]
    by_cases h3 : natOfDigits 10 lit ≤ maxInt64
    · rw [if_pos h3]
      simp [h3]
    · rw [if_neg h3]
      simp [h3]

/-- C5 counterexample: the literal `08` is a non-empty all-digit string
whose decimal value 8 fits in an `int64`, yet `ParseProgram` on `08`
records the conversion error `could not parse "08" as integer` and yields
an expression statement wrapping the absent (nil) literal node: the
conversion uses base 0, which reads a leading-zero literal as octal. -/
theorem c5_counterexample :
    ((parseSource "08".toList).map fun r => (r.1.statements, r.2)) =
      some ([Stmt.exprS { type := .INT, literal := "08".toList } Expr.nilE],
        [couldNotParseMsg "08".toList]) ∧
    (∀ c ∈ "08".toList, isDisit c = true) ∧
    natOfDigits 10 "08".toList ≤ maxInt64 :=
  ⟨rfl, by decide, by decide⟩

/-- C5 amended: on every integer-literal token (a non-empty run of ASCII
digits), the handler converts the text with Go's base-inferred
(`base 0`) semantics: a leading-zero literal of length at least two is
octal, so it records an error and yields the absent node exactly when it
holds a digit above 7 or its octal value exceeds `int64` range (for
example `08`), and otherwise yields its octal value (`010` becomes 8);
any other literal is decimal and errors exactly when out of `int64`
range.  The handler is a total function: it never panics. -/
theorem c5_amended_base0_conversion :
    ∀ (s : PState) (lit : Str), s.curToken.literal = lit → lit ≠ [] →
      (∀ c ∈ lit, isDisit c = true) →
      parserIntegerLiteral s =
        match intLiteralSpec lit with
        | some v => (Expr.intLit s.curToken (v : Int), s)
        | none => (Expr.nilE, { s with errors := s.errors ++ [couldNotParseMsg lit] }) := by
  intro s lit hlit hne hdig
  rw [parserIntegerLiteral, hlit, goParseInt0_digits lit hne hdig]
  cases intLiteralSpec lit <;> rfl

/-- c5_amended_base0_conversion_witness instantiates the amended claim at
a parser state whose current token is the literal `010`: the handler
yields the integer-literal node with value 8 (octal), not 10. -/
theorem c5_amended_base0_conversion_witness :
    ("010".toList ≠ ([] : Str) ∧ (∀ c ∈ "010".toList, isDisit c = true)) ∧
    parserIntegerLiteral
        { lex := lexNew [], curToken := { type := .INT, literal := "010".toList },
          peekToken := { type := .EOF, literal := [] }, errors := [] } =
      (Expr.intLit { type := .INT, literal := "010".toList } 8,
        { lex := lexNew [], curToken := { type := .INT, literal := "010".toList },
          peekToken := { type := .EOF, literal := [] }, errors := [] }) := by
  refine ⟨⟨by decide, by decide⟩, ?_⟩
  rw [c5_amended_base0_conversion _ ("010".toList) rfl (by decide) (by decide)]
  rfl

/-! The two versions of `ExpressionStatement.String` (claim C9). -/

/-- C9: in the `ast/ast.go` version, `ExpressionStatement.String()`
returns the empty string for every expression statement — when the
wrapped expression is non-nil its rendering is computed and discarded —
so `Program.String()` of a program of expression statements only is
empty; the later AST version returns the wrapped expression's rendering
instead. -/
theorem c9_expression_statement_string_versions :
    (∀ (e : Expr), expressionStatementStringV1 e = []) ∧
    (∀ (p : Program), (∀ st ∈ p.statements, ∃ tok e, st = Stmt.exprS tok e) →
      programStringV1 p = []) ∧
    (∀ (e : Expr), e ≠ Expr.nilE → expressionStatementStringV2 e = exprString e) := by
  have hv1 : ∀ (e : Expr), expressionStatementStringV1 e = [] := by
    intro e
    rw [expressionStatementStringV1]
    split_ifs <;> rfl
  refine ⟨hv1, ?_, ?_⟩
  · intro p h
    rw [programStringV1]
    have haux : ∀ (sts : List Stmt), (∀ st ∈ sts, ∃ tok e, st = Stmt.exprS tok e) →
        (sts.map stmtStringV1).flatten = [] := by
      intro sts
      induction sts with
      | nil => intro _; rfl
      | cons st rest ih =>
        intro hall
        obtain ⟨tok, e, rfl⟩ := hall st (List.mem_cons_self _ _)
        simp only [List.map_cons, List.flatten_cons]
        rw [ih (fun x hx => hall x (List.mem_cons_of_mem _ hx))]
        rw [List.append_nil]
        exact hv1 e
    exact haux p.statements h
  · intro e he
    rw [expressionStatementStringV2, if_neg he]

/-- c9_expression_statement_string_versions_witness instantiates C9 on a
concrete identifier expression statement: version one renders the
statement and the one-statement program as the empty string; the later
version renders the identifier. -/
theorem c9_expression_statement_string_versions_witness :
    expressionStatementStringV1
        (Expr.ident { type := .IDENT, literal := "x".toList } "x".toList) = [] ∧
    programStringV1
        { statements := [Stmt.exprS { type := .IDENT, literal := "x".toList }
            (Expr.ident { type := .IDENT, literal := "x".toList } "x".toList)] } = [] ∧
    expressionStatementStringV2
        (Expr.ident { type := .IDENT, literal := "x".toList } "x".toList) = "x".toList := by
  refine ⟨c9_expression_statement_string_versions.1 _, ?_, ?_⟩
  · apply c9_expression_statement_string_versions.2.1
    intro st hst
    simp only [List.mem_singleton] at hst
    exact ⟨_, _, hst⟩
  · rw [c9_expression_statement_string_versions.2.2 _ (by simp)]
    rfl

end GoInterp
